import Mathlib

/-!
Verification of the StackIt engagement-consistency engine.

The definitions below are a shallow embedding of the Flask/SQLAlchemy code in
`python_full_app.py` (the full app) and `python_app.py` / `python_backend/app.py`
(the JSON API apps).  Database tables become lists of records, the mutable
session becomes explicit state passing, HTTP outcomes become small inductive
result types, and an uncaught Python exception (e.g. an attribute access on
`None`) becomes the distinguished `raised` outcome, returned together with the
state at the time the exception escapes (mutations already committed by
`db.session.commit()` are kept, as they are in the real database).
-/

/-- A row of the `users` table (fields relevant to the engine). -/
structure UserR where
  id : Nat
  username : String
deriving Repr, DecidableEq

/-- A row of the `questions` table (fields relevant to the engine). -/
structure QuestionR where
  id : Nat
  title : String
  author_id : Nat
  vote_score : Int
  accepted_answer_id : Option Nat
deriving Repr, DecidableEq

/-- A row of the `answers` table (fields relevant to the engine). -/
structure AnswerR where
  id : Nat
  content : String
  question_id : Nat
  author_id : Nat
  vote_score : Int
  is_accepted : Bool
deriving Repr, DecidableEq

/-- A row of the `votes` table.  As in the schema, both target references are
nullable; `vote_type` is the string stored in the database. -/
structure VoteR where
  id : Nat
  user_id : Nat
  question_id : Option Nat
  answer_id : Option Nat
  vote_type : String
deriving Repr, DecidableEq

/-- A row of the `notifications` table. -/
structure NotificationR where
  id : Nat
  user_id : Nat
  type : String
  title : String
  message : String
  question_id : Option Nat
  answer_id : Option Nat
  is_read : Bool
deriving Repr, DecidableEq

/-- The database state.  The `next_*` counters model the autoincrement
primary-key sequences of the corresponding tables. -/
structure DB where
  users : List UserR
  questions : List QuestionR
  answers : List AnswerR
  votes : List VoteR
  notifications : List NotificationR
  next_answer_id : Nat
  next_vote_id : Nat
  next_notification_id : Nat
deriving Repr, DecidableEq

/-- Truthiness of a nullable integer in Python: `None` and `0` are falsy.
Used wherever the source writes `if question_id:` on an id value. -/
def pyTruthy : Option Nat → Bool
  | none => false
  | some n => n != 0

/-- `Question.query.get(qid)` / lookup of a question row by primary key. -/
def lookupQuestion (s : DB) (qid : Nat) : Option QuestionR :=
  s.questions.find? (fun q => q.id == qid)

/-- `Answer.query.get(aid)` / lookup of an answer row by primary key. -/
def lookupAnswer (s : DB) (aid : Nat) : Option AnswerR :=
  s.answers.find? (fun a => a.id == aid)

/-- The `filter_by(user_id=..., question_id=..., answer_id=...)` predicate used
by `vote` to look up an existing Vote row; `none` matches SQL `IS NULL`
exactly as SQLAlchemy's `filter_by(...=None)` does. -/
def voteKeyMatch (uid : Nat) (qopt aopt : Option Nat) (v : VoteR) : Bool :=
  v.user_id == uid && v.question_id == qopt && v.answer_id == aopt

/-- Mutating `existing_vote.vote_type = vote_type` on the row returned by
`.first()`: overwrite the first matching row in place. -/
def overwriteFirstVote (uid : Nat) (qopt aopt : Option Nat) (dir : String) :
    List VoteR → List VoteR
  | [] => []
  | v :: rest =>
    if voteKeyMatch uid qopt aopt v then { v with vote_type := dir } :: rest
    else v :: overwriteFirstVote uid qopt aopt dir rest

/-- `Vote.query.filter_by(question_id=question_id, vote_type='up').count()`:
note the filter constrains only the question reference, exactly as the code
does. -/
def questionUpCount (s : DB) (qid : Nat) : Nat :=
  (s.votes.filter (fun v => v.question_id == some qid && v.vote_type == "up")).length

/-- Down-vote count for a question target, mirroring the code's filter. -/
def questionDownCount (s : DB) (qid : Nat) : Nat :=
  (s.votes.filter (fun v => v.question_id == some qid && v.vote_type == "down")).length

/-- The score the code assigns to a question: `up_votes - down_votes`. -/
def questionVoteTally (s : DB) (qid : Nat) : Int :=
  (questionUpCount s qid : Int) - (questionDownCount s qid : Int)

/-- Up-vote count for an answer target, mirroring the code's filter. -/
def answerUpCount (s : DB) (aid : Nat) : Nat :=
  (s.votes.filter (fun v => v.answer_id == some aid && v.vote_type == "up")).length

/-- Down-vote count for an answer target, mirroring the code's filter. -/
def answerDownCount (s : DB) (aid : Nat) : Nat :=
  (s.votes.filter (fun v => v.answer_id == some aid && v.vote_type == "down")).length

/-- The score the code assigns to an answer: `up_votes - down_votes`. -/
def answerVoteTally (s : DB) (aid : Nat) : Int :=
  (answerUpCount s aid : Int) - (answerDownCount s aid : Int)

/-- `question.vote_score = n` on the row with primary key `qid`. -/
def setQuestionScore (s : DB) (qid : Nat) (n : Int) : DB :=
  { s with questions :=
      s.questions.map (fun q => if q.id == qid then { q with vote_score := n } else q) }

/-- `answer.vote_score = n` on the row with primary key `aid`. -/
def setAnswerScore (s : DB) (aid : Nat) (n : Int) : DB :=
  { s with answers :=
      s.answers.map (fun a => if a.id == aid then { a with vote_score := n } else a) }

/-- `answer.is_accepted = b` on the row with primary key `aid` (identity when
no such row exists, like `Answer.query.get` returning `None` and the guarded
mutation being skipped). -/
def setAnswerAccepted (s : DB) (aid : Nat) (b : Bool) : DB :=
  { s with answers :=
      s.answers.map (fun a => if a.id == aid then { a with is_accepted := b } else a) }

/-- `question.accepted_answer_id = v` on the row with primary key `qid`. -/
def setQuestionAccepted (s : DB) (qid : Nat) (v : Option Nat) : DB :=
  { s with questions :=
      s.questions.map (fun q => if q.id == qid then { q with accepted_answer_id := v } else q) }

/-- `db.session.add(Notification(...))` followed by commit: append a fresh
unread notification row. -/
def addNotification (s : DB) (n_user : Nat) (kind title msg : String)
    (qref aref : Option Nat) : DB :=
  { s with
    notifications := s.notifications ++
      [⟨s.next_notification_id, n_user, kind, title, msg, qref, aref, false⟩],
    next_notification_id := s.next_notification_id + 1 }

/-- Outcome of the `/vote` route of `python_full_app.py`. -/
inductive VoteResult where
  | ok (new_score : Int)
  | badRequest (msg : String)
  | raised
deriving Repr, DecidableEq

/-- The answer branch of `vote` (`python_full_app.py` lines 361-380): recount
the answer's score, and create an `upvote` notification whenever the direction
is `up` and the answer's author differs from the voter — the code does not ask
whether the vote was freshly inserted.  The notification message reads
`answer.question.title`, so a dangling parent raises. -/
def voteAnswerBranch (s1 : DB) (uid aid : Nat) (vote_type : String) : VoteResult × DB :=
  match lookupAnswer s1 aid with
  | none => (.raised, s1)
  | some a =>
    let sc := answerVoteTally s1 aid
    let s2 := setAnswerScore s1 aid sc
    if vote_type == "up" && a.author_id != uid then
      match lookupQuestion s2 a.question_id with
      | none => (.raised, s2)
      | some pq =>
        (.ok sc,
          addNotification s2 a.author_id "upvote" "Your answer was upvoted"
            ("Someone upvoted your answer to \"" ++ pq.title ++ "\"")
            (some a.question_id) (some aid))
    else (.ok sc, s2)

/-- The tail of `vote` after the question branch declined: try the answer
target, else report `Invalid vote target` — note the Vote row committed by the
ledger step above is kept in either case. -/
def voteAfterQuestion (s1 : DB) (uid : Nat) (answer_id : Option Nat)
    (vote_type : String) : VoteResult × DB :=
  match answer_id with
  | some aid =>
    if aid != 0 then voteAnswerBranch s1 uid aid vote_type
    else (.badRequest "Invalid vote target", s1)
  | none => (.badRequest "Invalid vote target", s1)

/-- The ledger step of `vote` (lines 331-350): look up an existing Vote row by
`(user, question ref, answer ref)`; overwrite its direction when present,
otherwise insert a fresh row; then commit. -/
def ledgerUpdate (s : DB) (uid : Nat) (qopt aopt : Option Nat) (dir : String) : DB :=
  if s.votes.any (voteKeyMatch uid qopt aopt) then
    { s with votes := overwriteFirstVote uid qopt aopt dir s.votes }
  else
    { s with
      votes := s.votes ++ [⟨s.next_vote_id, uid, qopt, aopt, dir⟩],
      next_vote_id := s.next_vote_id + 1 }

/-- The `/vote` route of `python_full_app.py` (lines 318-382).  Faithful
control flow: direction check first; then the Vote row is inserted or its
direction overwritten and committed; only afterwards is the target examined
(question branch first, with an early return; then answer branch; else a 400
with the orphan Vote row already committed).  A vote on a nonexistent target
raises (`question.vote_score` on `None`) after the commit. -/
def vote (s : DB) (uid : Nat) (question_id answer_id : Option Nat)
    (vote_type : String) : VoteResult × DB :=
  if !(vote_type == "up" || vote_type == "down") then
    (.badRequest "Invalid vote type", s)
  else
    let s1 := ledgerUpdate s uid question_id answer_id vote_type
    match question_id with
    | some qid =>
      if qid != 0 then
        match lookupQuestion s1 qid with
        | none => (.raised, s1)
        | some _ =>
          let sc := questionVoteTally s1 qid
          (.ok sc, setQuestionScore s1 qid sc)
      else voteAfterQuestion s1 uid answer_id vote_type
    | none => voteAfterQuestion s1 uid answer_id vote_type

/-- All Vote rows for a given `(actor, question ref, answer ref)` key. -/
def voteRowsFor (s : DB) (uid : Nat) (qopt aopt : Option Nat) : List VoteR :=
  s.votes.filter (voteKeyMatch uid qopt aopt)

example :
    (vote ⟨[⟨1, "alice"⟩], [⟨1, "T", 1, 0, none⟩], [], [], [], 1, 1, 1⟩
      1 (some 1) none "up").1 = .ok 1 := by decide

/-- Outcome of an accept-answer route. -/
inductive AcceptResult where
  | ok
  | notFound
  | forbidden
  | raised
deriving Repr, DecidableEq

/-- The `/accept_answer/<answer_id>` route of `python_full_app.py`
(lines 384-409).  The question is obtained as `answer.question`, so it is
always the answer's true parent.  `get_or_404` on a missing answer is
`notFound`; a dangling parent relationship would raise; a non-author gets a
flash error and no state change (`forbidden`).  The swap: clear the previous
accepted answer's flag when `question.accepted_answer_id` is truthy, then set
the new flag and the question's pointer. -/
def acceptAnswerFull (s : DB) (uid aid : Nat) : AcceptResult × DB :=
  match lookupAnswer s aid with
  | none => (.notFound, s)
  | some a =>
    match lookupQuestion s a.question_id with
    | none => (.raised, s)
    | some q =>
      if q.author_id != uid then (.forbidden, s)
      else
        let s1 :=
          match q.accepted_answer_id with
          | some pid => if pid != 0 then setAnswerAccepted s pid false else s
          | none => s
        let s2 := setAnswerAccepted s1 aid true
        let s3 := setQuestionAccepted s2 a.question_id (some aid)
        (.ok, s3)

/-- The `/api/questions/<question_id>/answers/<answer_id>/accept` route of
`python_app.py` (lines 379-402) and `python_backend/app.py` (lines 362-386).
The question and the answer are looked up independently and the code never
compares `answer.question_id` with `question_id` before marking the answer
accepted and pointing the question at it. -/
def acceptAnswerApi (s : DB) (uid qid aid : Nat) : AcceptResult × DB :=
  match lookupQuestion s qid with
  | none => (.notFound, s)
  | some q =>
    match lookupAnswer s aid with
    | none => (.notFound, s)
    | some _ =>
      if q.author_id != uid then (.forbidden, s)
      else
        let s1 :=
          match q.accepted_answer_id with
          | some pid => if pid != 0 then setAnswerAccepted s pid false else s
          | none => s
        let s2 := setAnswerAccepted s1 aid true
        let s3 := setQuestionAccepted s2 qid (some aid)
        (.ok, s3)

/-- A character of the `\w` class scanned by `re.findall(r'@(\w+)', ...)`
(ASCII fragment, which covers the usernames the app stores). -/
def isWordChar (c : Char) : Bool :=
  c.isAlphanum || c == '_'

/-- Close a candidate match: a run of word characters after an `@` is a match
exactly when it is nonempty. -/
def closeMention (w : List Char) : List String :=
  if w.isEmpty then [] else [⟨w⟩]

/-- Scanner state machine for `re.findall(r'@(\w+)', content)`: the first
argument is `some w` when the scanner sits right after an `@` with word-run
`w` accumulated so far, and `none` otherwise.  Runs left to right,
non-overlapping, and a length-zero run after an `@` is not a match — exactly
the regex engine's behavior. -/
def mentionScan : Option (List Char) → List Char → List String
  | acc, [] => closeMention (acc.getD [])
  | some w, c :: rest =>
    if isWordChar c then mentionScan (some (w ++ [c])) rest
    else closeMention w ++
      (if c == '@' then mentionScan (some []) rest else mentionScan none rest)
  | none, c :: rest =>
    if c == '@' then mentionScan (some []) rest else mentionScan none rest

/-- The successive matches of `re.findall(r'@(\w+)', content)`. -/
def findMentions (l : List Char) : List String :=
  mentionScan none l

example : findMentions "hi @bob and @bob, @@x a@b !@ @_1".data =
    ["bob", "bob", "x", "b", "_1"] := by decide

/-- Validity of the `AnswerForm` content field: `DataRequired()` (the field
stripped of whitespace is non-empty — checked on characters, which agrees with
Python's `str.strip()` truthiness) and `Length(min=10)`. -/
def contentValid (content : String) : Bool :=
  !(content.data.dropWhile Char.isWhitespace).isEmpty && content.length ≥ 10

/-- Outcome of the post-answer route. -/
inductive PostResult where
  | ok (answer_id : Nat)
  | notFound
  | invalidForm
deriving Repr, DecidableEq

/-- One iteration of the mention loop of `post_answer`
(`python_full_app.py` lines 298-310): resolve the username; when found and
distinct from the posting user, add a `mention` notification; otherwise do
nothing. -/
def mentionStep (uid qid aid : Nat) (curName title : String) (st : DB)
    (uname : String) : DB :=
  match st.users.find? (fun u => u.username == uname) with
  | some mu =>
    if mu.id != uid then
      addNotification st mu.id "mention" "You were mentioned in an answer"
        ("@" ++ curName ++ " mentioned you in an answer to \"" ++ title ++ "\"")
        (some qid) (some aid)
    else st
  | none => st

/-- The `/questions/<question_id>/answer` route of `python_full_app.py`
(lines 265-316).  `get_or_404` on the question; form validation; insert the
Answer; notify the question's author unless self-answering; then scan the body
for `@(\w+)` mentions and fire one notification per match that resolves to a
user other than the poster.  (The message text reads the posting user's
username via the ambient session; a logged-in session always resolves, so the
lookup is totalized with an empty default.) -/
def postAnswerFull (s : DB) (uid qid : Nat) (content : String) : PostResult × DB :=
  match lookupQuestion s qid with
  | none => (.notFound, s)
  | some q =>
    if contentValid content then
      let aid := s.next_answer_id
      let s1 := { s with
        answers := s.answers ++ [⟨aid, content, qid, uid, 0, false⟩],
        next_answer_id := aid + 1 }
      let s2 :=
        if q.author_id != uid then
          addNotification s1 q.author_id "answer" "New answer to your question"
            ("Someone answered your question \"" ++ q.title ++ "\"")
            (some qid) (some aid)
        else s1
      let curName := ((s.users.find? (fun u => u.id == uid)).map (fun u => u.username)).getD ""
      let s3 := (findMentions content.data).foldl (mentionStep uid qid aid curName q.title) s2
      (.ok aid, s3)
    else (.invalidForm, s)

/-- The `/notifications` route of `python_full_app.py` (lines 477-488): list
the current user's notifications and, as a side effect, mark every one of them
read before committing. -/
def notificationsRoute (s : DB) (uid : Nat) : DB :=
  { s with notifications :=
      s.notifications.map (fun n => if n.user_id == uid then { n with is_read := true } else n) }

/-- The `/notifications/count` route: unread notifications of one user. -/
def unreadCount (s : DB) (uid : Nat) : Nat :=
  (s.notifications.filter (fun n => n.user_id == uid && n.is_read == false)).length

/-! ### Helper lemmas about the state mutators -/

theorem votes_setQuestionScore (s : DB) (qid : Nat) (n : Int) :
    (setQuestionScore s qid n).votes = s.votes := rfl

theorem votes_setAnswerScore (s : DB) (aid : Nat) (n : Int) :
    (setAnswerScore s aid n).votes = s.votes := rfl

theorem votes_addNotification (s : DB) (u : Nat) (k t m : String) (qr ar : Option Nat) :
    (addNotification s u k t m qr ar).votes = s.votes := rfl

theorem score_of_mem_setQuestionScore {s : DB} {qid : Nat} {n : Int} {q : QuestionR}
    (hq : q ∈ (setQuestionScore s qid n).questions) (hid : q.id = qid) :
    q.vote_score = n := by
  rcases List.mem_map.1 hq with ⟨q₀, _, heq⟩
  by_cases hc : q₀.id = qid
  · rw [if_pos (by simpa using hc)] at heq
    rw [← heq]
  · rw [if_neg (by simpa using hc)] at heq
    exact absurd (heq ▸ hid) hc

theorem score_of_mem_setAnswerScore {s : DB} {aid : Nat} {n : Int} {a : AnswerR}
    (ha : a ∈ (setAnswerScore s aid n).answers) (hid : a.id = aid) :
    a.vote_score = n := by
  rcases List.mem_map.1 ha with ⟨a₀, _, heq⟩
  by_cases hc : a₀.id = aid
  · rw [if_pos (by simpa using hc)] at heq
    rw [← heq]
  · rw [if_neg (by simpa using hc)] at heq
    exact absurd (heq ▸ hid) hc

/-- Claim helper: in the answer branch reached with an `ok` outcome, the
returned score and the stored score are the fresh recount. -/
theorem voteAfterQuestion_ok (s1 : DB) (uid : Nat) (aopt : Option Nat)
    (dir : String) (n : Int) (s' : DB)
    (h : voteAfterQuestion s1 uid aopt dir = (.ok n, s')) :
    ∀ aid, aopt = some aid →
      n = answerVoteTally s' aid ∧
      ∀ a ∈ s'.answers, a.id = aid → a.vote_score = answerVoteTally s' aid := by
  intro aid haopt
  subst haopt
  by_cases h0 : aid = 0
  · subst h0
    simp [voteAfterQuestion] at h
  · simp only [voteAfterQuestion, voteAnswerBranch] at h
    rw [if_pos (show (aid != 0) = true by simpa using h0)] at h
    split at h
    · simp at h
    · split at h
      · split at h
        · simp at h
        · simp only [Prod.mk.injEq, VoteResult.ok.injEq] at h
          obtain ⟨hn, hs⟩ := h
          subst hs
          refine ⟨hn.symm, ?_⟩
          intro a' ha' hid
          exact score_of_mem_setAnswerScore ha' hid
      · simp only [Prod.mk.injEq, VoteResult.ok.injEq] at h
        obtain ⟨hn, hs⟩ := h
        subst hs
        refine ⟨hn.symm, ?_⟩
        intro a' ha' hid
        exact score_of_mem_setAnswerScore ha' hid

/-- Claim C3: after every successful castVote call, the target's stored
`vote_score` (and the score returned to the caller) equals the fresh
re-aggregation `count(up) - count(down)` over the Vote rows for that target in
the post-state.  The pre-state `s` is arbitrary — in particular its stored
scores may be stale or garbage — so the equality can only come from a full
recount, never from an incremental plus-one or minus-one update. -/
theorem castVote_recounts_score (s : DB) (uid : Nat) (qopt aopt : Option Nat)
    (dir : String) (n : Int) (s' : DB)
    (h : vote s uid qopt aopt dir = (.ok n, s')) :
    (∀ qid, qopt = some qid → qid ≠ 0 →
       n = questionVoteTally s' qid ∧
       ∀ q ∈ s'.questions, q.id = qid → q.vote_score = questionVoteTally s' qid) ∧
    (∀ aid, pyTruthy qopt = false → aopt = some aid →
       n = answerVoteTally s' aid ∧
       ∀ a ∈ s'.answers, a.id = aid → a.vote_score = answerVoteTally s' aid) := by
  cases qopt with
  | none =>
    simp only [vote] at h
    split at h
    · simp at h
    · constructor
      · intro qid hq
        simp at hq
      · intro aid hpt haopt
        exact voteAfterQuestion_ok _ _ _ _ _ _ h aid haopt
  | some qid =>
    by_cases h0 : qid = 0
    · subst h0
      simp only [vote] at h
      split at h
      · simp at h
      · rw [if_neg (by simp)] at h
        constructor
        · intro qid' hq hne
          injection hq with h'
          exact absurd h'.symm hne
        · intro aid hpt haopt
          exact voteAfterQuestion_ok _ _ _ _ _ _ h aid haopt
    · simp only [vote] at h
      split at h
      · simp at h
      · rw [if_pos (show (qid != 0) = true by simpa using h0)] at h
        split at h
        · simp at h
        · simp only [Prod.mk.injEq, VoteResult.ok.injEq] at h
          obtain ⟨hn, hs⟩ := h
          subst hs
          constructor
          · intro qid' hq hne
            injection hq with h'
            subst h'
            refine ⟨hn.symm, ?_⟩
            intro q' hq' hid
            exact score_of_mem_setQuestionScore hq' hid
          · intro aid hpt haopt
            exact absurd hpt (by simpa [pyTruthy] using h0)

theorem votes_voteAnswerBranch (s1 : DB) (uid aid : Nat) (dir : String) :
    (voteAnswerBranch s1 uid aid dir).2.votes = s1.votes := by
  simp only [voteAnswerBranch]
  split
  · rfl
  · split
    · split <;> rfl
    · rfl

theorem votes_voteAfterQuestion (s1 : DB) (uid : Nat) (aopt : Option Nat) (dir : String) :
    (voteAfterQuestion s1 uid aopt dir).2.votes = s1.votes := by
  cases aopt with
  | none => rfl
  | some aid =>
    simp only [voteAfterQuestion]
    split
    · exact votes_voteAnswerBranch s1 uid aid dir
    · rfl

/-- With a recognized direction, the Vote table after any `vote` call is
exactly the committed ledger step (the later branches never touch it). -/
theorem vote_votes (s : DB) (uid : Nat) (qopt aopt : Option Nat) (dir : String)
    (hdir : dir = "up" ∨ dir = "down") :
    (vote s uid qopt aopt dir).2.votes = (ledgerUpdate s uid qopt aopt dir).votes := by
  have hcheck : (!(dir == "up" || dir == "down")) = false := by
    rcases hdir with rfl | rfl <;> rfl
  simp only [vote, hcheck, Bool.false_eq_true, if_false]
  split
  · split
    · split <;> rfl
    · exact votes_voteAfterQuestion _ uid aopt dir
  · exact votes_voteAfterQuestion _ uid aopt dir

theorem ledgerUpdate_votes (s : DB) (uid : Nat) (qopt aopt : Option Nat) (dir : String) :
    (ledgerUpdate s uid qopt aopt dir).votes =
      if s.votes.any (voteKeyMatch uid qopt aopt) then
        overwriteFirstVote uid qopt aopt dir s.votes
      else s.votes ++ [⟨s.next_vote_id, uid, qopt, aopt, dir⟩] := by
  unfold ledgerUpdate
  split <;> rfl

theorem filter_overwriteFirstVote (uid : Nat) (qopt aopt : Option Nat) (dir : String)
    (l : List VoteR) :
    ((overwriteFirstVote uid qopt aopt dir l).filter (voteKeyMatch uid qopt aopt)).length =
      (l.filter (voteKeyMatch uid qopt aopt)).length := by
  induction l with
  | nil => rfl
  | cons v rest ih =>
    simp only [overwriteFirstVote]
    by_cases hv : voteKeyMatch uid qopt aopt v = true
    · rw [if_pos hv]
      have hv' : voteKeyMatch uid qopt aopt { v with vote_type := dir } = true := hv
      rw [List.filter_cons_of_pos hv', List.filter_cons_of_pos hv]
      rfl
    · rw [if_neg hv]
      rw [List.filter_cons_of_neg (by simpa using hv), List.filter_cons_of_neg (by simpa using hv)]
      exact ih

theorem mem_filter_overwriteFirstVote (uid : Nat) (qopt aopt : Option Nat) (dir : String)
    (l : List VoteR)
    (hle : (l.filter (voteKeyMatch uid qopt aopt)).length ≤ 1) :
    ∀ v ∈ (overwriteFirstVote uid qopt aopt dir l).filter (voteKeyMatch uid qopt aopt),
      v.vote_type = dir := by
  induction l with
  | nil => intro v hv; simp [overwriteFirstVote] at hv
  | cons w rest ih =>
    simp only [overwriteFirstVote]
    by_cases hw : voteKeyMatch uid qopt aopt w = true
    · rw [if_pos hw]
      have hw' : voteKeyMatch uid qopt aopt { w with vote_type := dir } = true := hw
      rw [List.filter_cons_of_pos hw']
      have hrest : rest.filter (voteKeyMatch uid qopt aopt) = [] := by
        rw [List.filter_cons_of_pos hw] at hle
        simp only [List.length_cons] at hle
        have h0 : (rest.filter (voteKeyMatch uid qopt aopt)).length = 0 := by omega
        exact List.eq_nil_of_length_eq_zero h0
      rw [hrest]
      intro v hv
      simp only [List.mem_singleton] at hv
      subst hv
      rfl
    · rw [if_neg hw]
      rw [List.filter_cons_of_neg (by simpa using hw)]
      rw [List.filter_cons_of_neg (by simpa using hw)] at hle
      exact ih hle

/-- Claim C4: for any castVote call with a recognized direction, if the store
holds at most one Vote row for the `(actor, target)` key then afterwards it
holds exactly one, and every row for that key carries the direction of the
latest call — the first call inserts the row and every later call overwrites
its direction in place.  Iterating this over a call sequence keeps a single
row whose direction is the last one cast. -/
theorem castVote_single_vote_row (s : DB) (uid : Nat) (qopt aopt : Option Nat)
    (dir : String) (hdir : dir = "up" ∨ dir = "down")
    (hle : (voteRowsFor s uid qopt aopt).length ≤ 1) :
    (voteRowsFor (vote s uid qopt aopt dir).2 uid qopt aopt).length = 1 ∧
    ∀ v ∈ voteRowsFor (vote s uid qopt aopt dir).2 uid qopt aopt, v.vote_type = dir := by
  have hv := vote_votes s uid qopt aopt dir hdir
  unfold voteRowsFor at hle ⊢
  rw [hv, ledgerUpdate_votes]
  by_cases hany : s.votes.any (voteKeyMatch uid qopt aopt) = true
  · rw [if_pos hany]
    constructor
    · rw [filter_overwriteFirstVote]
      rcases List.any_eq_true.mp hany with ⟨x, hx, hkx⟩
      have hmem : x ∈ s.votes.filter (voteKeyMatch uid qopt aopt) :=
        List.mem_filter.mpr ⟨hx, hkx⟩
      have hpos : 0 < (s.votes.filter (voteKeyMatch uid qopt aopt)).length :=
        List.length_pos_of_mem hmem
      omega
    · exact mem_filter_overwriteFirstVote uid qopt aopt dir s.votes hle
  · rw [if_neg hany]
    simp only [Bool.not_eq_true] at hany
    have hnil : s.votes.filter (voteKeyMatch uid qopt aopt) = [] := by
      rw [List.filter_eq_nil_iff]
      intro a ha
      simpa using List.any_eq_false.mp hany a ha
    have hnew : voteKeyMatch uid qopt aopt ⟨s.next_vote_id, uid, qopt, aopt, dir⟩ = true := by
      simp [voteKeyMatch]
    rw [List.filter_append, hnil, List.filter_cons_of_pos hnew]
    constructor
    · rfl
    · intro v hv'
      simp only [List.nil_append, List.filter_nil, List.mem_singleton] at hv'
      subst hv'
      rfl

/-- Scenario state for the C4 witness: user 1 has voted `up` and then `down`
on answer 1 (one question, one answer by another user, no other votes). -/
def voteChainState : DB :=
  (vote (vote ⟨[⟨1, "alice"⟩, ⟨2, "bob"⟩], [⟨1, "T", 1, 0, none⟩],
      [⟨1, "helpful answer", 1, 2, 0, false⟩], [], [], 2, 1, 1⟩
    1 none (some 1) "up").2 1 none (some 1) "down").2

/-- Witness for C4: the third vote (`up` after `up`, `down`) leaves exactly one
Vote row for (user 1, answer 1), it reads `up`, and the recomputed score is 1,
not 3. -/
theorem castVote_single_vote_row_witness :
    (voteRowsFor (vote voteChainState 1 none (some 1) "up").2 1 none (some 1)).length = 1 ∧
    ((voteRowsFor (vote voteChainState 1 none (some 1) "up").2 1 none (some 1)).all
      (fun v => v.vote_type == "up")) = true ∧
    ((vote voteChainState 1 none (some 1) "up").2.answers.all
      (fun a => a.vote_score == 1)) = true :=
  ⟨(castVote_single_vote_row voteChainState 1 none (some 1) "up" (Or.inl rfl) (by decide)).1,
   by decide, by decide⟩

/-- Concrete pre-state for the C3 witness: the question's stored score is a
stale 5 and another user's `up` vote already exists. -/
def staleScoreState : DB :=
  ⟨[⟨1, "alice"⟩], [⟨1, "T", 1, 5, none⟩], [], [⟨9, 2, some 1, none, "up"⟩], [], 1, 10, 1⟩

/-- Witness for C3: voting `up` on question 1 returns and stores the full
recount 2 (one prior `up` plus this one), not the stale 5 plus one. -/
theorem castVote_recounts_score_witness :
    (2 : Int) = questionVoteTally (vote staleScoreState 1 (some 1) none "up").2 1 ∧
    ((vote staleScoreState 1 (some 1) none "up").2.questions.all
      (fun q => q.vote_score == 2)) = true :=
  ⟨((castVote_recounts_score staleScoreState 1 (some 1) none "up" 2
      (vote staleScoreState 1 (some 1) none "up").2 (by decide)).1 1 rfl (by decide)).1,
   by decide⟩

theorem ledgerUpdate_questions (s : DB) (uid : Nat) (qopt aopt : Option Nat) (dir : String) :
    (ledgerUpdate s uid qopt aopt dir).questions = s.questions := by
  unfold ledgerUpdate; split <;> rfl

theorem ledgerUpdate_answers (s : DB) (uid : Nat) (qopt aopt : Option Nat) (dir : String) :
    (ledgerUpdate s uid qopt aopt dir).answers = s.answers := by
  unfold ledgerUpdate; split <;> rfl

theorem ledgerUpdate_notifications (s : DB) (uid : Nat) (qopt aopt : Option Nat) (dir : String) :
    (ledgerUpdate s uid qopt aopt dir).notifications = s.notifications := by
  unfold ledgerUpdate; split <;> rfl

theorem ledgerUpdate_next_notification_id (s : DB) (uid : Nat) (qopt aopt : Option Nat)
    (dir : String) :
    (ledgerUpdate s uid qopt aopt dir).next_notification_id = s.next_notification_id := by
  unfold ledgerUpdate; split <;> rfl

/-- Shared helper: when no Vote row for the key exists yet, any `vote` call
with a recognized direction leaves exactly one row for that key (the insert
happens before any target validation). -/
theorem vote_rows_one (s : DB) (uid : Nat) (qopt aopt : Option Nat) (dir : String)
    (hdir : dir = "up" ∨ dir = "down")
    (hempty : voteRowsFor s uid qopt aopt = []) :
    (voteRowsFor (vote s uid qopt aopt dir).2 uid qopt aopt).length = 1 := by
  unfold voteRowsFor at hempty ⊢
  rw [vote_votes s uid qopt aopt dir hdir, ledgerUpdate_votes]
  have hany : s.votes.any (voteKeyMatch uid qopt aopt) = false := by
    rw [List.any_eq_false]
    intro a ha
    simpa using List.filter_eq_nil_iff.mp hempty a ha
  rw [if_neg (by simp [hany])]
  have hnew : voteKeyMatch uid qopt aopt ⟨s.next_vote_id, uid, qopt, aopt, dir⟩ = true := by
    simp [voteKeyMatch]
  rw [List.filter_append, hempty, List.filter_cons_of_pos hnew]
  rfl

/-- Fresh two-entity state used by the C6 counterexample and witness. -/
def cleanState : DB :=
  ⟨[⟨1, "alice"⟩], [⟨1, "T", 1, 0, none⟩], [], [], [], 1, 1, 1⟩

/-- Counterexample to claim C6: with an empty target the call does return an
error, but a Vote row referencing neither a question nor an answer has already
been inserted and committed; and with both references supplied the call is not
rejected at all — it succeeds and stores a Vote row referencing both. -/
theorem castVote_target_validation_cex :
    ((vote cleanState 1 none none "up").1 = VoteResult.badRequest "Invalid vote target" ∧
     (vote cleanState 1 none none "up").2.votes = [⟨1, 1, none, none, "up"⟩]) ∧
    (vote cleanState 1 (some 1) (some 1) "up").1 = VoteResult.ok 1 ∧
    (vote cleanState 1 (some 1) (some 1) "up").2.votes = [⟨1, 1, some 1, some 1, "up"⟩] := by
  decide

/-- Claim C6 as amended: an empty-target castVote with a recognized direction
returns the `Invalid vote target` error only after inserting a Vote row with
neither reference (one row for the empty key remains), and an ambiguous call
supplying both references is never rejected with that error. -/
theorem castVote_target_validation_amended (s : DB) (uid qid aid : Nat) (dir : String)
    (hdir : dir = "up" ∨ dir = "down") (hqid : qid ≠ 0)
    (hempty : voteRowsFor s uid none none = []) :
    ((vote s uid none none dir).1 = VoteResult.badRequest "Invalid vote target" ∧
     (voteRowsFor (vote s uid none none dir).2 uid none none).length = 1) ∧
    ∀ msg, (vote s uid (some qid) (some aid) dir).1 ≠ VoteResult.badRequest msg := by
  have hcheck : (!(dir == "up" || dir == "down")) = false := by
    rcases hdir with rfl | rfl <;> rfl
  refine ⟨⟨?_, vote_rows_one s uid none none dir hdir hempty⟩, ?_⟩
  · simp only [vote, hcheck, Bool.false_eq_true, if_false]
    rfl
  · intro msg
    simp only [vote, hcheck, Bool.false_eq_true, if_false]
    rw [if_pos (show (qid != 0) = true by simpa using hqid)]
    split <;> simp

/-- Witness for the amended C6 at a concrete state. -/
theorem castVote_target_validation_amended_witness :
    ((vote cleanState 1 none none "up").1 = VoteResult.badRequest "Invalid vote target" ∧
     (voteRowsFor (vote cleanState 1 none none "up").2 1 none none).length = 1) ∧
    (vote cleanState 1 (some 1) (some 1) "up").1 ≠ VoteResult.badRequest "Invalid vote target" :=
  ⟨(castVote_target_validation_amended cleanState 1 1 1 "up" (Or.inl rfl) (by decide)
      (by decide)).1,
   (castVote_target_validation_amended cleanState 1 1 1 "up" (Or.inl rfl) (by decide)
      (by decide)).2 "Invalid vote target"⟩

/-- State with no questions and no answers, for the C7 counterexample. -/
def noTargetState : DB :=
  ⟨[⟨1, "alice"⟩], [], [], [], [], 1, 1, 1⟩

/-- Counterexample to claim C7: voting on a nonexistent question does not fail
with a NotFound outcome and does not leave the state unchanged — the Vote row
is committed and then the score-update step raises an uncaught exception
(`question.vote_score` on `None`), surfaced as a generic 500. -/
theorem castVote_missing_target_cex :
    (vote noTargetState 1 (some 5) none "up").1 = VoteResult.raised ∧
    (vote noTargetState 1 (some 5) none "up").2.votes = [⟨1, 1, some 5, none, "up"⟩] := by
  decide

/-- Claim C7 as amended: a castVote naming a nonexistent question or answer
first inserts and commits the Vote row, then raises an uncaught exception in
the recount step; the orphan row for the key remains in the store. -/
theorem castVote_missing_target_amended (s : DB) (uid qid aid : Nat) (dir : String)
    (hdir : dir = "up" ∨ dir = "down") (hqid : qid ≠ 0) (haid : aid ≠ 0)
    (hnoq : lookupQuestion s qid = none) (hnoa : lookupAnswer s aid = none)
    (hq0 : voteRowsFor s uid (some qid) none = [])
    (ha0 : voteRowsFor s uid none (some aid) = []) :
    ((vote s uid (some qid) none dir).1 = VoteResult.raised ∧
     (voteRowsFor (vote s uid (some qid) none dir).2 uid (some qid) none).length = 1) ∧
    ((vote s uid none (some aid) dir).1 = VoteResult.raised ∧
     (voteRowsFor (vote s uid none (some aid) dir).2 uid none (some aid)).length = 1) := by
  have hcheck : (!(dir == "up" || dir == "down")) = false := by
    rcases hdir with rfl | rfl <;> rfl
  refine ⟨⟨?_, vote_rows_one s uid (some qid) none dir hdir hq0⟩,
    ⟨?_, vote_rows_one s uid none (some aid) dir hdir ha0⟩⟩
  · simp only [vote, hcheck, Bool.false_eq_true, if_false]
    rw [if_pos (show (qid != 0) = true by simpa using hqid)]
    have hl : lookupQuestion (ledgerUpdate s uid (some qid) none dir) qid = none := by
      unfold lookupQuestion
      rw [ledgerUpdate_questions]
      exact hnoq
    rw [hl]
  · simp only [vote, hcheck, Bool.false_eq_true, if_false, voteAfterQuestion]
    rw [if_pos (show (aid != 0) = true by simpa using haid)]
    simp only [voteAnswerBranch]
    have hl : lookupAnswer (ledgerUpdate s uid none (some aid) dir) aid = none := by
      unfold lookupAnswer
      rw [ledgerUpdate_answers]
      exact hnoa
    rw [hl]

/-- Witness for the amended C7 at a concrete state. -/
theorem castVote_missing_target_amended_witness :
    ((vote noTargetState 1 (some 5) none "up").1 = VoteResult.raised ∧
     (voteRowsFor (vote noTargetState 1 (some 5) none "up").2 1 (some 5) none).length = 1) ∧
    ((vote noTargetState 1 none (some 7) "up").1 = VoteResult.raised ∧
     (voteRowsFor (vote noTargetState 1 none (some 7) "up").2 1 none (some 7)).length = 1) :=
  castVote_missing_target_amended noTargetState 1 5 7 "up" (Or.inl rfl) (by decide) (by decide)
    rfl rfl (by decide) (by decide)

/-- With a recognized direction and a truthy answer reference (and no question
reference), `vote` is exactly the ledger step followed by the answer branch. -/
theorem vote_answer_branch_eq (s : DB) (uid aid : Nat) (dir : String)
    (hdir : dir = "up" ∨ dir = "down") (haid : aid ≠ 0) :
    vote s uid none (some aid) dir =
      voteAnswerBranch (ledgerUpdate s uid none (some aid) dir) uid aid dir := by
  have hcheck : (!(dir == "up" || dir == "down")) = false := by
    rcases hdir with rfl | rfl <;> rfl
  simp only [vote, hcheck, Bool.false_eq_true, if_false, voteAfterQuestion]
  rw [if_pos (show (aid != 0) = true by simpa using haid)]

/-- The notifications produced by the answer branch: one `upvote` notification
to the answer's author exactly when the direction is `up` and the author is
not the voter — independently of any prior vote by this voter. -/
theorem voteAnswerBranch_notifications (s1 : DB) (uid aid : Nat) (dir : String)
    (a : AnswerR) (pq : QuestionR) (hfa : lookupAnswer s1 aid = some a)
    (hfq : lookupQuestion s1 a.question_id = some pq) :
    (voteAnswerBranch s1 uid aid dir).2.notifications =
      if dir == "up" && a.author_id != uid then
        s1.notifications ++
          [⟨s1.next_notification_id, a.author_id, "upvote", "Your answer was upvoted",
            "Someone upvoted your answer to \"" ++ pq.title ++ "\"",
            some a.question_id, some aid, false⟩]
      else s1.notifications := by
  simp only [voteAnswerBranch, hfa]
  by_cases hcond : (dir == "up" && a.author_id != uid) = true
  · rw [if_pos hcond, if_pos hcond]
    have hfq2 : lookupQuestion (setAnswerScore s1 aid (answerVoteTally s1 aid))
        a.question_id = some pq := hfq
    rw [hfq2]
    rfl
  · rw [if_neg hcond, if_neg hcond]
    rfl

/-- State for the C5 counterexample: user 1 already holds a `down` vote on
answer 1, which was authored by user 2. -/
def overwriteUpState : DB :=
  ⟨[⟨1, "alice"⟩, ⟨2, "bob"⟩], [⟨1, "T", 1, 0, none⟩], [⟨1, "ans", 1, 2, 0, false⟩],
   [⟨1, 1, none, some 1, "down"⟩], [], 2, 2, 1⟩

/-- Counterexample to claim C5: user 1's `up` vote on answer 1 merely
overwrites their existing `down` vote (one row for the key exists before the
call), yet an `upvote` notification to the answer's author is still created —
the code never suppresses the notification for overwritten votes. -/
theorem upvote_notification_cex :
    (voteRowsFor overwriteUpState 1 none (some 1)).length = 1 ∧
    (vote overwriteUpState 1 none (some 1) "up").2.notifications.map
      (fun n => (n.user_id, n.type)) = [(2, "upvote")] := by
  decide

/-- Claim C5 as amended: on a castVote call that reaches the answer branch
(no question reference, resolvable answer reference, recognized direction),
the `upvote` notification to the answer's author is created exactly when the
direction is `up` and the author differs from the voter — regardless of
whether the Vote row was freshly inserted or an existing row was overwritten
(even an up-after-up re-vote fires another notification). -/
theorem upvote_notification_amended (s : DB) (uid aid : Nat) (dir : String)
    (a : AnswerR) (pq : QuestionR)
    (hdir : dir = "up" ∨ dir = "down") (haid : aid ≠ 0)
    (hfa : lookupAnswer s aid = some a) (hfq : lookupQuestion s a.question_id = some pq) :
    (vote s uid none (some aid) dir).2.notifications =
      if dir = "up" ∧ a.author_id ≠ uid then
        s.notifications ++
          [⟨s.next_notification_id, a.author_id, "upvote", "Your answer was upvoted",
            "Someone upvoted your answer to \"" ++ pq.title ++ "\"",
            some a.question_id, some aid, false⟩]
      else s.notifications := by
  rw [vote_answer_branch_eq s uid aid dir hdir haid]
  have hfa' : lookupAnswer (ledgerUpdate s uid none (some aid) dir) aid = some a := by
    unfold lookupAnswer
    rw [ledgerUpdate_answers]
    exact hfa
  have hfq' : lookupQuestion (ledgerUpdate s uid none (some aid) dir) a.question_id = some pq := by
    unfold lookupQuestion
    rw [ledgerUpdate_questions]
    exact hfq
  rw [voteAnswerBranch_notifications _ uid aid dir a pq hfa' hfq']
  rw [ledgerUpdate_notifications, ledgerUpdate_next_notification_id]
  by_cases hc : dir = "up" ∧ a.author_id ≠ uid
  · rw [if_pos (by simp only [Bool.and_eq_true, beq_iff_eq, bne_iff_ne]; exact hc), if_pos hc]
  · rw [if_neg (by simp only [Bool.and_eq_true, beq_iff_eq, bne_iff_ne]; exact hc), if_neg hc]

/-- Witness for the amended C5: the overwrite case fires the notification. -/
theorem upvote_notification_amended_witness :
    (vote overwriteUpState 1 none (some 1) "up").2.notifications =
      if "up" = "up" ∧ (2 : Nat) ≠ 1 then
        overwriteUpState.notifications ++
          [⟨1, 2, "upvote", "Your answer was upvoted",
            "Someone upvoted your answer to \"T\"", some 1, some 1, false⟩]
      else overwriteUpState.notifications :=
  upvote_notification_amended overwriteUpState 1 1 "up" ⟨1, "ans", 1, 2, 0, false⟩
    ⟨1, "T", 1, 0, none⟩ (Or.inl rfl) (by decide) rfl rfl

theorem DB.ext_of (x y : DB) (hu : x.users = y.users) (hq : x.questions = y.questions)
    (ha : x.answers = y.answers) (hv : x.votes = y.votes)
    (hn : x.notifications = y.notifications) (h1 : x.next_answer_id = y.next_answer_id)
    (h2 : x.next_vote_id = y.next_vote_id)
    (h3 : x.next_notification_id = y.next_notification_id) : x = y := by
  cases x; cases y; simp_all

theorem map_set_accepted_true_id (l : List AnswerR) (aid : Nat)
    (hAll : ∀ x ∈ l, x.id = aid → x.is_accepted = true) :
    (l.map (fun x => if x.id == aid then { x with is_accepted := true } else x)) = l := by
  have h : ∀ x ∈ l, (if x.id == aid then { x with is_accepted := true } else x) = x := by
    intro x hx
    by_cases hc : x.id = aid
    · rw [if_pos (by simpa using hc)]
      have := hAll x hx hc
      cases x
      simp_all
    · rw [if_neg (by simpa using hc)]
  rw [List.map_congr_left h, List.map_id']

theorem map_clear_then_set_id (l : List AnswerR) (aid : Nat)
    (hAll : ∀ x ∈ l, x.id = aid → x.is_accepted = true) :
    ((l.map (fun x => if x.id == aid then { x with is_accepted := false } else x)).map
      (fun x => if x.id == aid then { x with is_accepted := true } else x)) = l := by
  rw [List.map_map]
  have h : ∀ x ∈ l, ((fun x : AnswerR => if x.id == aid then { x with is_accepted := true } else x) ∘
      (fun x : AnswerR => if x.id == aid then { x with is_accepted := false } else x)) x = x := by
    intro x hx
    by_cases hc : x.id = aid
    · have hacc2 := hAll x hx hc
      cases x
      simp_all
    · cases x
      simp_all
  rw [List.map_congr_left h, List.map_id']

theorem map_set_qaccepted_id (l : List QuestionR) (qid : Nat) (v : Option Nat)
    (hAll : ∀ y ∈ l, y.id = qid → y.accepted_answer_id = v) :
    (l.map (fun y => if y.id == qid then { y with accepted_answer_id := v } else y)) = l := by
  have h : ∀ y ∈ l, (if y.id == qid then { y with accepted_answer_id := v } else y) = y := by
    intro y hy
    by_cases hc : y.id = qid
    · rw [if_pos (by simpa using hc)]
      have := hAll y hy hc
      cases y
      simp_all
    · rw [if_neg (by simpa using hc)]
  rw [List.map_congr_left h, List.map_id']

/-- Claim C9: accepting the answer that is already the question's accepted
answer succeeds and leaves the state exactly as it was — no field changes and
no notification is emitted (the clear-then-set swap rewrites the same flags to
their current values).  The two `∀` hypotheses say that the rows with the
relevant primary keys already carry the accepted marks, which is exactly the
already-accepted situation. -/
theorem acceptAnswer_self_idempotent (s : DB) (uid aid : Nat) (a : AnswerR) (q : QuestionR)
    (hfa : lookupAnswer s aid = some a) (hfq : lookupQuestion s a.question_id = some q)
    (hauth : q.author_id = uid) (hacc : q.accepted_answer_id = some aid)
    (hAllA : ∀ x ∈ s.answers, x.id = aid → x.is_accepted = true)
    (hAllQ : ∀ y ∈ s.questions, y.id = a.question_id → y.accepted_answer_id = some aid) :
    acceptAnswerFull s uid aid = (.ok, s) := by
  simp only [acceptAnswerFull, hfa, hfq]
  rw [if_neg (by simp [hauth]), hacc]
  by_cases haid : aid = 0
  · subst haid
    show (AcceptResult.ok,
      setQuestionAccepted (setAnswerAccepted s 0 true) a.question_id (some 0)) =
      (AcceptResult.ok, s)
    refine congrArg (fun st => (AcceptResult.ok, st)) (DB.ext_of _ _ rfl ?_ ?_ rfl rfl rfl rfl rfl)
    · exact map_set_qaccepted_id s.questions a.question_id (some 0) hAllQ
    · exact map_set_accepted_true_id s.answers 0 hAllA
  · show (AcceptResult.ok, setQuestionAccepted (setAnswerAccepted
        (if (aid != 0) = true then setAnswerAccepted s aid false else s) aid true)
        a.question_id (some aid)) = (AcceptResult.ok, s)
    rw [if_pos (show (aid != 0) = true by simpa using haid)]
    refine congrArg (fun st => (AcceptResult.ok, st)) (DB.ext_of _ _ rfl ?_ ?_ rfl rfl rfl rfl rfl)
    · exact map_set_qaccepted_id s.questions a.question_id (some aid) hAllQ
    · exact map_clear_then_set_id s.answers aid hAllA

/-- Concrete already-accepted state for the C9 witness. -/
def acceptedState : DB :=
  ⟨[⟨1, "alice"⟩, ⟨2, "bob"⟩], [⟨1, "T", 1, 0, some 1⟩], [⟨1, "ans", 1, 2, 0, true⟩],
   [], [], 2, 1, 1⟩

/-- Witness for C9: re-accepting the accepted answer returns success and the
state is unchanged. -/
theorem acceptAnswer_self_idempotent_witness :
    acceptAnswerFull acceptedState 1 1 = (.ok, acceptedState) :=
  acceptAnswer_self_idempotent acceptedState 1 1 ⟨1, "ans", 1, 2, 0, true⟩
    ⟨1, "T", 1, 0, some 1⟩ rfl rfl rfl rfl (by decide) (by decide)

/-! ### Acceptance invariant: projected views of the state -/

/-- Projection of an Answer row onto the fields the acceptance invariant
mentions. -/
structure AnswerAcc where
  id : Nat
  question_id : Nat
  accepted : Bool
deriving Repr, DecidableEq

/-- Projection of a Question row onto the fields the acceptance invariant
mentions. -/
structure QuestionAcc where
  id : Nat
  accepted_answer_id : Option Nat
deriving Repr, DecidableEq

/-- The questions of a state, seen through the acceptance projection. -/
def qview (s : DB) : List QuestionAcc :=
  s.questions.map (fun q => ⟨q.id, q.accepted_answer_id⟩)

/-- The answers of a state, seen through the acceptance projection. -/
def aview (s : DB) : List AnswerAcc :=
  s.answers.map (fun a => ⟨a.id, a.question_id, a.is_accepted⟩)

/-- In a list with pairwise-distinct keys, members with equal keys are equal. -/
theorem pairwise_key_eq {α : Type} (key : α → Nat) {l : List α}
    (h : l.Pairwise (fun x y => key x ≠ key y)) :
    ∀ x ∈ l, ∀ y ∈ l, key x = key y → x = y := by
  induction l with
  | nil => intro x hx; simp at hx
  | cons a t ih =>
    intro x hx y hy hk
    rcases List.mem_cons.mp hx with rfl | hx'
    · rcases List.mem_cons.mp hy with rfl | hy'
      · rfl
      · exact absurd hk ((List.pairwise_cons.mp h).1 y hy')
    · rcases List.mem_cons.mp hy with rfl | hy'
      · exact absurd hk.symm ((List.pairwise_cons.mp h).1 x hx')
      · exact ih (List.pairwise_cons.mp h).2 x hx' y hy' hk

/-- Pairwise-distinct keys transfer back along a key-preserving map. -/
theorem pairwise_of_pairwise_map_key {α β : Type} (f : α → β) (keyb : β → Nat)
    (keya : α → Nat) (hk : ∀ x, keyb (f x) = keya x) {l : List α}
    (h : (l.map f).Pairwise (fun x y => keyb x ≠ keyb y)) :
    l.Pairwise (fun x y => keya x ≠ keya y) := by
  induction l with
  | nil => exact List.Pairwise.nil
  | cons a t ih =>
    rw [List.map_cons] at h
    obtain ⟨h1, h2⟩ := List.pairwise_cons.mp h
    refine List.pairwise_cons.mpr ⟨?_, ih h2⟩
    intro b hb
    have h3 := h1 (f b) (List.mem_map_of_mem f hb)
    rw [hk, hk] at h3
    exact h3

/-- A key-preserving map keeps keys pairwise distinct. -/
theorem pairwise_ne_map {α : Type} (key : α → Nat) (f : α → α)
    (hf : ∀ x, key (f x) = key x) {l : List α}
    (h : l.Pairwise (fun x y => key x ≠ key y)) :
    (l.map f).Pairwise (fun x y => key x ≠ key y) :=
  List.Pairwise.map f (fun a b hab => by rw [hf, hf]; exact hab) h

/-- The acceptance projection of `answer.is_accepted = b` on primary key
`aid`. -/
def setAccFlag (aid : Nat) (b : Bool) (p : AnswerAcc) : AnswerAcc :=
  if p.id == aid then { p with accepted := b } else p

/-- The acceptance projection of `question.accepted_answer_id = v` on primary
key `qid`. -/
def setQAccField (qid : Nat) (v : Option Nat) (p : QuestionAcc) : QuestionAcc :=
  if p.id == qid then { p with accepted_answer_id := v } else p

theorem setAccFlag_id (aid : Nat) (b : Bool) (p : AnswerAcc) :
    (setAccFlag aid b p).id = p.id := by
  unfold setAccFlag; split <;> rfl

theorem setAccFlag_question_id (aid : Nat) (b : Bool) (p : AnswerAcc) :
    (setAccFlag aid b p).question_id = p.question_id := by
  unfold setAccFlag; split <;> rfl

theorem setAccFlag_accepted_of_eq {aid : Nat} {b : Bool} {p : AnswerAcc} (h : p.id = aid) :
    (setAccFlag aid b p).accepted = b := by
  unfold setAccFlag; rw [if_pos (by simpa using h)]

theorem setAccFlag_of_ne {aid : Nat} {b : Bool} {p : AnswerAcc} (h : p.id ≠ aid) :
    setAccFlag aid b p = p := by
  unfold setAccFlag; rw [if_neg (by simpa using h)]

theorem setQAccField_id (qid : Nat) (v : Option Nat) (p : QuestionAcc) :
    (setQAccField qid v p).id = p.id := by
  unfold setQAccField; split <;> rfl

theorem setQAccField_accepted_of_eq {qid : Nat} {v : Option Nat} {p : QuestionAcc}
    (h : p.id = qid) : (setQAccField qid v p).accepted_answer_id = v := by
  unfold setQAccField; rw [if_pos (by simpa using h)]

theorem setQAccField_of_ne {qid : Nat} {v : Option Nat} {p : QuestionAcc} (h : p.id ≠ qid) :
    setQAccField qid v p = p := by
  unfold setQAccField; rw [if_neg (by simpa using h)]

theorem qview_setQuestionAccepted (s : DB) (qid : Nat) (v : Option Nat) :
    qview (setQuestionAccepted s qid v) = (qview s).map (setQAccField qid v) := by
  unfold qview setQuestionAccepted setQAccField
  simp only [List.map_map]
  apply List.map_congr_left
  intro q _
  simp only [Function.comp_apply]
  by_cases hc : q.id = qid
  · rw [if_pos (by simpa using hc), if_pos (by simpa using hc)]
  · rw [if_neg (by simpa using hc), if_neg (by simpa using hc)]

theorem aview_setAnswerAccepted (s : DB) (aid : Nat) (b : Bool) :
    aview (setAnswerAccepted s aid b) = (aview s).map (setAccFlag aid b) := by
  unfold aview setAnswerAccepted setAccFlag
  simp only [List.map_map]
  apply List.map_congr_left
  intro a _
  simp only [Function.comp_apply]
  by_cases hc : a.id = aid
  · rw [if_pos (by simpa using hc), if_pos (by simpa using hc)]
  · rw [if_neg (by simpa using hc), if_neg (by simpa using hc)]

theorem qview_setAnswerAccepted (s : DB) (aid : Nat) (b : Bool) :
    qview (setAnswerAccepted s aid b) = qview s := rfl

theorem aview_setQuestionAccepted (s : DB) (qid : Nat) (v : Option Nat) :
    aview (setQuestionAccepted s qid v) = aview s := rfl

theorem qview_setQuestionScore (s : DB) (qid : Nat) (n : Int) :
    qview (setQuestionScore s qid n) = qview s := by
  unfold qview setQuestionScore
  simp only [List.map_map]
  apply List.map_congr_left
  intro q _
  simp only [Function.comp_apply]
  split <;> rfl

theorem aview_setAnswerScore (s : DB) (aid : Nat) (n : Int) :
    aview (setAnswerScore s aid n) = aview s := by
  unfold aview setAnswerScore
  simp only [List.map_map]
  apply List.map_congr_left
  intro a _
  simp only [Function.comp_apply]
  split <;> rfl

/-- The acceptance invariant on projected views: distinct primary keys,
answer ids positive and below the autoincrement counter, every answer has an
existing parent question, every `accepted_answer_id` points at an existing
answer of that same question, and an answer is flagged accepted exactly when
its parent question points at it. -/
def InvOn (qs : List QuestionAcc) (an : List AnswerAcc) (next : Nat) : Prop :=
  qs.Pairwise (fun p p' => p.id ≠ p'.id) ∧
  an.Pairwise (fun p p' => p.id ≠ p'.id) ∧
  (∀ p ∈ an, p.id < next ∧ 1 ≤ p.id) ∧
  (∀ p ∈ an, ∃ qp ∈ qs, qp.id = p.question_id) ∧
  (∀ qp ∈ qs, ∀ pid, qp.accepted_answer_id = some pid →
     ∃ p ∈ an, p.id = pid ∧ p.question_id = qp.id) ∧
  (∀ p ∈ an, ∀ qp ∈ qs, qp.id = p.question_id →
     (p.accepted = true ↔ qp.accepted_answer_id = some p.id)) ∧
  1 ≤ next

/-- The acceptance invariant of a database state. -/
def AccInv (s : DB) : Prop :=
  InvOn (qview s) (aview s) s.next_answer_id

/-- Inserting a fresh, unaccepted answer with the next id under an existing
question preserves the invariant. -/
theorem invOn_insert (qs : List QuestionAcc) (an : List AnswerAcc) (next : Nat) (qid : Nat)
    (hInv : InvOn qs an next) (hq : ∃ qp ∈ qs, qp.id = qid) :
    InvOn qs (an ++ [⟨next, qid, false⟩]) (next + 1) := by
  obtain ⟨hqd, had, hbd, hpar, href, hiff, hnext⟩ := hInv
  refine ⟨hqd, ?_, ?_, ?_, ?_, ?_, Nat.le_succ_of_le hnext⟩
  · rw [List.pairwise_append]
    refine ⟨had, by simp, ?_⟩
    intro a ha b hb
    simp only [List.mem_singleton] at hb
    subst hb
    have := (hbd a ha).1
    simp only [ne_eq]
    omega
  · intro p hp
    rcases List.mem_append.mp hp with h | h
    · have := hbd p h
      exact ⟨Nat.lt_succ_of_lt this.1, this.2⟩
    · simp only [List.mem_singleton] at h
      subst h
      exact ⟨Nat.lt_succ_self _, hnext⟩
  · intro p hp
    rcases List.mem_append.mp hp with h | h
    · exact hpar p h
    · simp only [List.mem_singleton] at h
      subst h
      exact hq
  · intro qp hqp pid hpid
    obtain ⟨p, hpmem, hp1, hp2⟩ := href qp hqp pid hpid
    exact ⟨p, List.mem_append_left _ hpmem, hp1, hp2⟩
  · intro p hp qp hqp hid
    rcases List.mem_append.mp hp with h | h
    · exact hiff p h qp hqp hid
    · simp only [List.mem_singleton] at h
      subst h
      constructor
      · intro hfalse
        simp at hfalse
      · intro hsome
        obtain ⟨p', hp', hp'1, _⟩ := href qp hqp next hsome
        have := (hbd p' hp').1
        omega

/-- Core preservation lemma for the acceptance swap, stated abstractly over
the transformation `F` applied to the answers view (identity up to the
accepted flag): `F` sets the target's flag, never turns a flag on for any
other answer, clears the flag of the previously accepted answer of the target
question, and leaves answers of other questions untouched.  Both the full
app's swap (with or without a previous accepted answer) instantiates `F`. -/
theorem invOn_accept_general (qs : List QuestionAcc) (an : List AnswerAcc) (next : Nat)
    (hInv : InvOn qs an next)
    (ap : AnswerAcc) (hap : ap ∈ an)
    (qp0 : QuestionAcc) (hqp0 : qp0 ∈ qs) (hqp0id : qp0.id = ap.question_id)
    (F : AnswerAcc → AnswerAcc)
    (hFid : ∀ p, (F p).id = p.id)
    (hFq : ∀ p, (F p).question_id = p.question_id)
    (hFap : ∀ p, p.id = ap.id → (F p).accepted = true)
    (hFkeep : ∀ p, p.id ≠ ap.id → (F p).accepted = true → p.accepted = true)
    (hFclear : ∀ p, p.id ≠ ap.id → qp0.accepted_answer_id = some p.id → (F p).accepted = false)
    (hFframe : ∀ p ∈ an, p.question_id ≠ ap.question_id → p.id ≠ ap.id →
       (F p).accepted = p.accepted) :
    InvOn (qs.map (setQAccField ap.question_id (some ap.id))) (an.map F) next := by
  obtain ⟨hqd, had, hbd, hpar, href, hiff, hnext⟩ := hInv
  have hqeq := pairwise_key_eq (fun p : QuestionAcc => p.id) hqd
  have haeq := pairwise_key_eq (fun p : AnswerAcc => p.id) had
  refine ⟨?_, ?_, ?_, ?_, ?_, ?_, hnext⟩
  · exact pairwise_ne_map _ _ (setQAccField_id ap.question_id (some ap.id)) hqd
  · exact pairwise_ne_map _ _ hFid had
  · intro z hz
    obtain ⟨p, hp, rfl⟩ := List.mem_map.mp hz
    rw [hFid]
    exact hbd p hp
  · intro z hz
    obtain ⟨p, hp, rfl⟩ := List.mem_map.mp hz
    obtain ⟨qp, hqp, hqpid⟩ := hpar p hp
    refine ⟨setQAccField ap.question_id (some ap.id) qp, List.mem_map_of_mem _ hqp, ?_⟩
    rw [setQAccField_id, hFq]
    exact hqpid
  · intro qp' hqp' pid2 hpid2
    obtain ⟨qp, hqp, rfl⟩ := List.mem_map.mp hqp'
    by_cases hcq : qp.id = ap.question_id
    · rw [setQAccField_accepted_of_eq hcq] at hpid2
      refine ⟨F ap, List.mem_map_of_mem _ hap, ?_, ?_⟩
      · rw [hFid]
        exact Option.some.inj hpid2
      · rw [hFq, setQAccField_id]
        exact hcq.symm
    · rw [setQAccField_of_ne hcq] at hpid2
      obtain ⟨p, hp, hp1, hp2⟩ := href qp hqp pid2 hpid2
      refine ⟨F p, List.mem_map_of_mem _ hp, ?_, ?_⟩
      · rw [hFid]
        exact hp1
      · rw [hFq, setQAccField_of_ne hcq]
        exact hp2
  · intro z hz qp' hqp' hid
    obtain ⟨p, hp, rfl⟩ := List.mem_map.mp hz
    obtain ⟨qp, hqp, rfl⟩ := List.mem_map.mp hqp'
    rw [setQAccField_id, hFq] at hid
    by_cases hcq : qp.id = ap.question_id
    · rw [setQAccField_accepted_of_eq hcq, hFid]
      by_cases hpa : p.id = ap.id
      · rw [hFap p hpa]
        simp [hpa]
      · constructor
        · intro hFacc
          exfalso
          by_cases hclear : qp0.accepted_answer_id = some p.id
          · rw [hFclear p hpa hclear] at hFacc
            simp at hFacc
          · have hpacc : p.accepted = true := hFkeep p hpa hFacc
            have hqq0 : qp = qp0 := hqeq qp hqp qp0 hqp0 (hcq.trans hqp0id.symm)
            have hm := (hiff p hp qp hqp hid).mp hpacc
            rw [hqq0] at hm
            exact hclear hm
        · intro hsome
          exact absurd (Option.some.inj hsome).symm hpa
    · rw [setQAccField_of_ne hcq]
      have hpa : p.id ≠ ap.id := by
        intro hpe
        have hpap : p = ap := haeq p hp ap hap hpe
        rw [hpap] at hid
        exact hcq hid
      have hpq : p.question_id ≠ ap.question_id := fun hh => hcq (hid.trans hh)
      rw [hFframe p hp hpq hpa, hFid]
      exact hiff p hp qp hqp hid

theorem ledgerUpdate_next_answer_id (s : DB) (uid : Nat) (qopt aopt : Option Nat)
    (dir : String) :
    (ledgerUpdate s uid qopt aopt dir).next_answer_id = s.next_answer_id := by
  unfold ledgerUpdate; split <;> rfl

theorem qview_ledgerUpdate (s : DB) (uid : Nat) (qopt aopt : Option Nat) (dir : String) :
    qview (ledgerUpdate s uid qopt aopt dir) = qview s := by
  unfold qview
  rw [ledgerUpdate_questions]

theorem aview_ledgerUpdate (s : DB) (uid : Nat) (qopt aopt : Option Nat) (dir : String) :
    aview (ledgerUpdate s uid qopt aopt dir) = aview s := by
  unfold aview
  rw [ledgerUpdate_answers]

theorem qview_voteAnswerBranch (s1 : DB) (uid aid : Nat) (dir : String) :
    qview (voteAnswerBranch s1 uid aid dir).2 = qview s1 := by
  simp only [voteAnswerBranch]
  split
  · rfl
  · split
    · split <;> rfl
    · rfl

theorem aview_voteAnswerBranch (s1 : DB) (uid aid : Nat) (dir : String) :
    aview (voteAnswerBranch s1 uid aid dir).2 = aview s1 := by
  simp only [voteAnswerBranch]
  split
  · rfl
  · split
    · split
      · exact aview_setAnswerScore s1 aid _
      · exact aview_setAnswerScore s1 aid _
    · exact aview_setAnswerScore s1 aid _

theorem next_answer_id_voteAnswerBranch (s1 : DB) (uid aid : Nat) (dir : String) :
    (voteAnswerBranch s1 uid aid dir).2.next_answer_id = s1.next_answer_id := by
  simp only [voteAnswerBranch]
  split
  · rfl
  · split
    · split <;> rfl
    · rfl

theorem qview_voteAfterQuestion (s1 : DB) (uid : Nat) (aopt : Option Nat) (dir : String) :
    qview (voteAfterQuestion s1 uid aopt dir).2 = qview s1 := by
  cases aopt with
  | none => rfl
  | some aid =>
    simp only [voteAfterQuestion]
    split
    · exact qview_voteAnswerBranch s1 uid aid dir
    · rfl

theorem aview_voteAfterQuestion (s1 : DB) (uid : Nat) (aopt : Option Nat) (dir : String) :
    aview (voteAfterQuestion s1 uid aopt dir).2 = aview s1 := by
  cases aopt with
  | none => rfl
  | some aid =>
    simp only [voteAfterQuestion]
    split
    · exact aview_voteAnswerBranch s1 uid aid dir
    · rfl

theorem next_answer_id_voteAfterQuestion (s1 : DB) (uid : Nat) (aopt : Option Nat)
    (dir : String) :
    (voteAfterQuestion s1 uid aopt dir).2.next_answer_id = s1.next_answer_id := by
  cases aopt with
  | none => rfl
  | some aid =>
    simp only [voteAfterQuestion]
    split
    · exact next_answer_id_voteAnswerBranch s1 uid aid dir
    · rfl

theorem qview_vote (s : DB) (uid : Nat) (qopt aopt : Option Nat) (dir : String) :
    qview (vote s uid qopt aopt dir).2 = qview s := by
  simp only [vote]
  split
  · rfl
  · split
    · split
      · split
        · exact qview_ledgerUpdate s uid _ aopt dir
        · rw [qview_setQuestionScore]
          exact qview_ledgerUpdate s uid _ aopt dir
      · rw [qview_voteAfterQuestion]
        exact qview_ledgerUpdate s uid _ aopt dir
    · rw [qview_voteAfterQuestion]
      exact qview_ledgerUpdate s uid _ aopt dir

theorem aview_vote (s : DB) (uid : Nat) (qopt aopt : Option Nat) (dir : String) :
    aview (vote s uid qopt aopt dir).2 = aview s := by
  simp only [vote]
  split
  · rfl
  · split
    · split
      · split
        · exact aview_ledgerUpdate s uid _ aopt dir
        · exact aview_ledgerUpdate s uid _ aopt dir
      · rw [aview_voteAfterQuestion]
        exact aview_ledgerUpdate s uid _ aopt dir
    · rw [aview_voteAfterQuestion]
      exact aview_ledgerUpdate s uid _ aopt dir

theorem next_answer_id_vote (s : DB) (uid : Nat) (qopt aopt : Option Nat) (dir : String) :
    (vote s uid qopt aopt dir).2.next_answer_id = s.next_answer_id := by
  simp only [vote]
  split
  · rfl
  · split
    · split
      · split
        · exact ledgerUpdate_next_answer_id s uid _ aopt dir
        · exact ledgerUpdate_next_answer_id s uid _ aopt dir
      · rw [next_answer_id_voteAfterQuestion]
        exact ledgerUpdate_next_answer_id s uid _ aopt dir
    · rw [next_answer_id_voteAfterQuestion]
      exact ledgerUpdate_next_answer_id s uid _ aopt dir

/-- castVote never touches the acceptance data: the invariant is preserved. -/
theorem accInv_vote (s : DB) (uid : Nat) (qopt aopt : Option Nat) (dir : String)
    (h : AccInv s) : AccInv (vote s uid qopt aopt dir).2 := by
  unfold AccInv at h ⊢
  rw [qview_vote, aview_vote, next_answer_id_vote]
  exact h

theorem mentionStep_questions (uid qid aid : Nat) (c t : String) (st : DB) (uname : String) :
    (mentionStep uid qid aid c t st uname).questions = st.questions := by
  unfold mentionStep
  split
  · split <;> rfl
  · rfl

theorem mentionStep_answers (uid qid aid : Nat) (c t : String) (st : DB) (uname : String) :
    (mentionStep uid qid aid c t st uname).answers = st.answers := by
  unfold mentionStep
  split
  · split <;> rfl
  · rfl

theorem mentionStep_next_answer_id (uid qid aid : Nat) (c t : String) (st : DB)
    (uname : String) :
    (mentionStep uid qid aid c t st uname).next_answer_id = st.next_answer_id := by
  unfold mentionStep
  split
  · split <;> rfl
  · rfl

theorem foldl_mentionStep_questions (uid qid aid : Nat) (c t : String) (names : List String)
    (st : DB) :
    (names.foldl (mentionStep uid qid aid c t) st).questions = st.questions := by
  induction names generalizing st with
  | nil => rfl
  | cons n ns ih => rw [List.foldl_cons, ih, mentionStep_questions]

theorem foldl_mentionStep_answers (uid qid aid : Nat) (c t : String) (names : List String)
    (st : DB) :
    (names.foldl (mentionStep uid qid aid c t) st).answers = st.answers := by
  induction names generalizing st with
  | nil => rfl
  | cons n ns ih => rw [List.foldl_cons, ih, mentionStep_answers]

theorem foldl_mentionStep_next_answer_id (uid qid aid : Nat) (c t : String)
    (names : List String) (st : DB) :
    (names.foldl (mentionStep uid qid aid c t) st).next_answer_id = st.next_answer_id := by
  induction names generalizing st with
  | nil => rfl
  | cons n ns ih => rw [List.foldl_cons, ih, mentionStep_next_answer_id]

/-- The successful post-answer state, through the acceptance views: questions
unchanged, one fresh unaccepted answer appended, counter bumped. -/
theorem postAnswer_state_views (s : DB) (uid qid : Nat) (content : String) (q : QuestionR)
    (hfq : lookupQuestion s qid = some q) (hval : contentValid content = true) :
    qview (postAnswerFull s uid qid content).2 = qview s ∧
    aview (postAnswerFull s uid qid content).2 = aview s ++ [⟨s.next_answer_id, qid, false⟩] ∧
    (postAnswerFull s uid qid content).2.next_answer_id = s.next_answer_id + 1 := by
  simp only [postAnswerFull, hfq]
  rw [if_pos hval]
  refine ⟨?_, ?_, ?_⟩
  · unfold qview
    rw [foldl_mentionStep_questions]
    split <;> rfl
  · unfold aview
    rw [foldl_mentionStep_answers]
    have hmap : ∀ Y : DB,
        Y.answers = s.answers ++ [⟨s.next_answer_id, content, qid, uid, 0, false⟩] →
        Y.answers.map (fun a => (⟨a.id, a.question_id, a.is_accepted⟩ : AnswerAcc)) =
          s.answers.map (fun a => (⟨a.id, a.question_id, a.is_accepted⟩ : AnswerAcc)) ++
            [⟨s.next_answer_id, qid, false⟩] := by
      intro Y hY
      rw [hY, List.map_append]
      rfl
    split
    · exact hmap _ rfl
    · exact hmap _ rfl
  · rw [foldl_mentionStep_next_answer_id]
    split <;> rfl

/-- postAnswer preserves the acceptance invariant. -/
theorem accInv_postAnswer (s : DB) (uid qid : Nat) (content : String) (h : AccInv s) :
    AccInv (postAnswerFull s uid qid content).2 := by
  cases hfq : lookupQuestion s qid with
  | none =>
    simp only [postAnswerFull, hfq]
    exact h
  | some q =>
    by_cases hval : contentValid content = true
    · obtain ⟨e1, e2, e3⟩ := postAnswer_state_views s uid qid content q hfq hval
      unfold AccInv
      rw [e1, e2, e3]
      apply invOn_insert _ _ _ _ h
      have hqmem : q ∈ s.questions := List.mem_of_find?_eq_some hfq
      have hqid : q.id = qid := by simpa using List.find?_some hfq
      exact ⟨⟨q.id, q.accepted_answer_id⟩, List.mem_map_of_mem _ hqmem, hqid⟩
    · simp only [postAnswerFull, hfq]
      rw [if_neg hval]
      exact h

/-- The full app's acceptAnswer preserves the acceptance invariant: the
clear-then-set swap moves the accepted flag and the pointer together. -/
theorem accInv_acceptFull (s : DB) (uid aid : Nat) (h : AccInv s) :
    AccInv (acceptAnswerFull s uid aid).2 := by
  cases hfa : lookupAnswer s aid with
  | none =>
    simp only [acceptAnswerFull, hfa]
    exact h
  | some a =>
    cases hfq : lookupQuestion s a.question_id with
    | none =>
      simp only [acceptAnswerFull, hfa, hfq]
      exact h
    | some q =>
      simp only [acceptAnswerFull, hfa, hfq]
      by_cases hauth : (q.author_id != uid) = true
      · rw [if_pos hauth]
        exact h
      · rw [if_neg hauth]
        have haq : a.id = aid := by simpa using List.find?_some hfa
        subst haq
        have hamem : a ∈ s.answers := List.mem_of_find?_eq_some hfa
        have hqmem : q ∈ s.questions := List.mem_of_find?_eq_some hfq
        have hqid : q.id = a.question_id := by simpa using List.find?_some hfq
        have hapmem : (⟨a.id, a.question_id, a.is_accepted⟩ : AnswerAcc) ∈ aview s :=
          List.mem_map_of_mem _ hamem
        have hqp0mem : (⟨q.id, q.accepted_answer_id⟩ : QuestionAcc) ∈ qview s :=
          List.mem_map_of_mem _ hqmem
        cases hacc : q.accepted_answer_id with
        | none =>
          rw [hacc] at hqp0mem
          show InvOn
            (qview (setQuestionAccepted (setAnswerAccepted s a.id true) a.question_id
              (some a.id)))
            (aview (setQuestionAccepted (setAnswerAccepted s a.id true) a.question_id
              (some a.id)))
            s.next_answer_id
          rw [qview_setQuestionAccepted, qview_setAnswerAccepted,
            aview_setQuestionAccepted, aview_setAnswerAccepted]
          refine invOn_accept_general (qview s) (aview s) s.next_answer_id h
            ⟨a.id, a.question_id, a.is_accepted⟩ hapmem ⟨q.id, none⟩ hqp0mem hqid
            (setAccFlag a.id true) (setAccFlag_id a.id true)
            (setAccFlag_question_id a.id true) ?_ ?_ ?_ ?_
          · intro p hp
            exact setAccFlag_accepted_of_eq hp
          · intro p hp hh
            rw [setAccFlag_of_ne hp] at hh
            exact hh
          · intro p _ hcontra
            exact absurd hcontra (by simp)
          · intro p _ _ hpa
            rw [setAccFlag_of_ne hpa]
        | some pid =>
          rw [hacc] at hqp0mem
          have h' := h
          obtain ⟨hqd, had, hbd, hpar, href, hiff, hnext⟩ := h'
          obtain ⟨pprev, hpprev, hpprevid, hpprevq⟩ :=
            href ⟨q.id, some pid⟩ hqp0mem pid rfl
          have hpidpos : 1 ≤ pid := by
            have hb := (hbd pprev hpprev).2
            rw [hpprevid] at hb
            exact hb
          show InvOn
            (qview (setQuestionAccepted (setAnswerAccepted
              (if (pid != 0) = true then setAnswerAccepted s pid false else s) a.id true)
              a.question_id (some a.id)))
            (aview (setQuestionAccepted (setAnswerAccepted
              (if (pid != 0) = true then setAnswerAccepted s pid false else s) a.id true)
              a.question_id (some a.id)))
            ((if (pid != 0) = true then setAnswerAccepted s pid false else s).next_answer_id)
          rw [if_pos (show (pid != 0) = true by simpa using Nat.one_le_iff_ne_zero.mp hpidpos)]
          rw [qview_setQuestionAccepted, qview_setAnswerAccepted, qview_setAnswerAccepted,
            aview_setQuestionAccepted, aview_setAnswerAccepted, aview_setAnswerAccepted,
            List.map_map]
          refine invOn_accept_general (qview s) (aview s) s.next_answer_id h
            ⟨a.id, a.question_id, a.is_accepted⟩ hapmem ⟨q.id, some pid⟩ hqp0mem hqid
            (setAccFlag a.id true ∘ setAccFlag pid false) ?_ ?_ ?_ ?_ ?_ ?_
          · intro p
            simp only [Function.comp_apply]
            rw [setAccFlag_id, setAccFlag_id]
          · intro p
            simp only [Function.comp_apply]
            rw [setAccFlag_question_id, setAccFlag_question_id]
          · intro p hpe
            simp only [Function.comp_apply]
            exact setAccFlag_accepted_of_eq (by rw [setAccFlag_id]; exact hpe)
          · intro p hpa hh
            simp only [Function.comp_apply] at hh
            rw [setAccFlag_of_ne (by rw [setAccFlag_id]; exact hpa)] at hh
            by_cases hpp : p.id = pid
            · rw [setAccFlag_accepted_of_eq hpp] at hh
              simp at hh
            · rw [setAccFlag_of_ne hpp] at hh
              exact hh
          · intro p hpa hsome
            have hpp : p.id = pid := (Option.some.inj hsome).symm
            simp only [Function.comp_apply]
            rw [setAccFlag_of_ne (by rw [setAccFlag_id]; exact hpa)]
            exact setAccFlag_accepted_of_eq hpp
          · intro p hp hq2 hpa
            have hpp : p.id ≠ pid := by
              intro hpe
              have hppr : p = pprev :=
                pairwise_key_eq (fun x : AnswerAcc => x.id) had p hp pprev hpprev
                  (hpe.trans hpprevid.symm)
              apply hq2
              rw [hppr]
              have : pprev.question_id = q.id := hpprevq
              rw [this, hqid]
            simp only [Function.comp_apply]
            rw [setAccFlag_of_ne hpp, setAccFlag_of_ne hpa]

/-- One public engine call of the full app (`python_full_app.py`):
postAnswer, castVote, or acceptAnswer, with arbitrary arguments. -/
inductive EngineStep : DB → DB → Prop where
  | post (s : DB) (uid qid : Nat) (content : String) :
      EngineStep s (postAnswerFull s uid qid content).2
  | cast (s : DB) (uid : Nat) (qopt aopt : Option Nat) (dir : String) :
      EngineStep s (vote s uid qopt aopt dir).2
  | accept (s : DB) (uid aid : Nat) :
      EngineStep s (acceptAnswerFull s uid aid).2

/-- Reachability by a sequence of full-app engine calls. -/
inductive EngineReach : DB → DB → Prop where
  | refl (s : DB) : EngineReach s s
  | tail {s t u : DB} : EngineReach s t → EngineStep t u → EngineReach s u

/-- One public call of the repository: the full app's three operations plus
the JSON API apps' acceptAnswer, which takes an independent question id. -/
inductive RepoStep : DB → DB → Prop where
  | post (s : DB) (uid qid : Nat) (content : String) :
      RepoStep s (postAnswerFull s uid qid content).2
  | cast (s : DB) (uid : Nat) (qopt aopt : Option Nat) (dir : String) :
      RepoStep s (vote s uid qopt aopt dir).2
  | acceptFull (s : DB) (uid aid : Nat) :
      RepoStep s (acceptAnswerFull s uid aid).2
  | acceptApi (s : DB) (uid qid aid : Nat) :
      RepoStep s (acceptAnswerApi s uid qid aid).2

/-- Reachability by a sequence of repository calls (either accept variant). -/
inductive RepoReach : DB → DB → Prop where
  | refl (s : DB) : RepoReach s s
  | tail {s t u : DB} : RepoReach s t → RepoStep t u → RepoReach s u

/-- Initial states: registered users and posted questions, no answers or votes
yet, fresh questions unaccepted, distinct question ids, positive autoincrement
counter. -/
def InitDB (s : DB) : Prop :=
  s.answers = [] ∧ (∀ q ∈ s.questions, q.accepted_answer_id = none) ∧
  s.questions.Pairwise (fun q₁ q₂ => q₁.id ≠ q₂.id) ∧ 1 ≤ s.next_answer_id

theorem accInv_of_init (s : DB) (h : InitDB s) : AccInv s := by
  obtain ⟨ha, hacc, hpw, hnext⟩ := h
  unfold AccInv InvOn aview qview
  rw [ha]
  refine ⟨?_, by simp, by simp, by simp, ?_, by simp, hnext⟩
  · exact List.Pairwise.map _ (fun a b hab => hab) hpw
  · intro qp hqp pid hpid
    obtain ⟨q, hq, rfl⟩ := List.mem_map.mp hqp
    have h2 : q.accepted_answer_id = some pid := hpid
    rw [hacc q hq] at h2
    simp at h2

theorem accInv_of_reach (s0 s : DB) (h0 : AccInv s0) (hr : EngineReach s0 s) : AccInv s := by
  induction hr with
  | refl => exact h0
  | tail _ hstep ih =>
    cases hstep with
    | post uid qid content => exact accInv_postAnswer _ uid qid content ih
    | cast uid qopt aopt dir => exact accInv_vote _ uid qopt aopt dir ih
    | accept uid aid => exact accInv_acceptFull _ uid aid ih

/-- Claim C1, as amended to the full app: in every state reachable from an
initial state by the full app's postAnswer, castVote and acceptAnswer calls,
each question has at most one accepted answer, and an answer is flagged
accepted exactly when its parent question's `accepted_answer_id` is its id. -/
theorem acceptedAnswer_invariant_full (s0 s : DB) (h0 : InitDB s0)
    (hr : EngineReach s0 s) :
    (∀ q ∈ s.questions, ∀ a₁ ∈ s.answers, ∀ a₂ ∈ s.answers,
       a₁.question_id = q.id → a₂.question_id = q.id →
       a₁.is_accepted = true → a₂.is_accepted = true → a₁ = a₂) ∧
    (∀ a ∈ s.answers, ∀ q ∈ s.questions, q.id = a.question_id →
       (a.is_accepted = true ↔ q.accepted_answer_id = some a.id)) := by
  have hinv : AccInv s := accInv_of_reach s0 s (accInv_of_init s0 h0) hr
  obtain ⟨hqd, had, hbd, hpar, href, hiff, hnext⟩ := hinv
  have hiff' : ∀ a ∈ s.answers, ∀ q ∈ s.questions, q.id = a.question_id →
      (a.is_accepted = true ↔ q.accepted_answer_id = some a.id) := by
    intro a ha q hq hid
    have hz : (⟨a.id, a.question_id, a.is_accepted⟩ : AnswerAcc) ∈ aview s :=
      List.mem_map_of_mem _ ha
    have hqz : (⟨q.id, q.accepted_answer_id⟩ : QuestionAcc) ∈ qview s :=
      List.mem_map_of_mem _ hq
    exact hiff _ hz _ hqz hid
  refine ⟨?_, hiff'⟩
  intro q hq a₁ ha₁ a₂ ha₂ h1 h2 hacc1 hacc2
  have e1 := (hiff' a₁ ha₁ q hq h1.symm).mp hacc1
  have e2 := (hiff' a₂ ha₂ q hq h2.symm).mp hacc2
  have hid : a₁.id = a₂.id := Option.some.inj (e1.symm.trans e2)
  have hadfull : s.answers.Pairwise (fun x y => x.id ≠ y.id) := by
    have h2 : (s.answers.map
        (fun a => (⟨a.id, a.question_id, a.is_accepted⟩ : AnswerAcc))).Pairwise
        (fun p p' => p.id ≠ p'.id) := had
    exact pairwise_of_pairwise_map_key _ (fun p : AnswerAcc => p.id)
      (fun a : AnswerR => a.id) (fun x => rfl) h2
  exact pairwise_key_eq (fun x : AnswerR => x.id) hadfull a₁ ha₁ a₂ ha₂ hid

/-- Concrete initial state: alice (1) and bob (2); two questions by alice. -/
def twoQuestionState : DB :=
  ⟨[⟨1, "alice"⟩, ⟨2, "bob"⟩], [⟨1, "T", 1, 0, none⟩, ⟨2, "U", 1, 0, none⟩],
   [], [], [], 1, 1, 1⟩

/-- The state after bob answers question 2 and alice then calls the API apps'
acceptAnswer with question id 1 and that answer's id. -/
def crossAcceptedState : DB :=
  (acceptAnswerApi (postAnswerFull twoQuestionState 2 2 "a good answer").2 1 1 1).2

/-- Counterexample to claim C1 as stated over the repository's operations:
from an initial state, a postAnswer followed by the API apps' acceptAnswer
(whose question id is not checked against the answer's parent) reaches a state
where an answer has `is_accepted = true` while its parent question's
`accepted_answer_id` is not its id. -/
theorem acceptedAnswer_invariant_cex :
    InitDB twoQuestionState ∧ RepoReach twoQuestionState crossAcceptedState ∧
    ¬ (∀ a ∈ crossAcceptedState.answers, ∀ q ∈ crossAcceptedState.questions,
        q.id = a.question_id →
        (a.is_accepted = true ↔ q.accepted_answer_id = some a.id)) := by
  refine ⟨by unfold InitDB; decide, ?_, by decide⟩
  exact RepoReach.tail
    (RepoReach.tail (RepoReach.refl twoQuestionState)
      (RepoStep.post twoQuestionState 2 2 "a good answer"))
    (RepoStep.acceptApi (postAnswerFull twoQuestionState 2 2 "a good answer").2 1 1 1)

/-- The state after bob answers question 1 and alice accepts it via the full
app's acceptAnswer. -/
def properAcceptedState : DB :=
  (acceptAnswerFull (postAnswerFull twoQuestionState 2 1 "a good answer").2 1 1).2

/-- Witness for the amended C1, applied along a concrete two-call reachable
state: the accepted answer's flag agrees with its parent's pointer. -/
theorem acceptedAnswer_invariant_full_witness :
    ((⟨1, "a good answer", 1, 2, 0, true⟩ : AnswerR).is_accepted = true ↔
      (⟨1, "T", 1, 0, some 1⟩ : QuestionR).accepted_answer_id =
        some (⟨1, "a good answer", 1, 2, 0, true⟩ : AnswerR).id) :=
  (acceptedAnswer_invariant_full twoQuestionState properAcceptedState
      (by unfold InitDB; decide)
      (EngineReach.tail
        (EngineReach.tail (EngineReach.refl twoQuestionState)
          (EngineStep.post twoQuestionState 2 1 "a good answer"))
        (EngineStep.accept (postAnswerFull twoQuestionState 2 1 "a good answer").2 1 1))).2
    ⟨1, "a good answer", 1, 2, 0, true⟩ (by decide) ⟨1, "T", 1, 0, some 1⟩ (by decide)
    (by decide)

/-- State for the C2 failing input: alice owns questions 1 and 2; answer 7 by
bob belongs to question 2. -/
def crossAcceptState : DB :=
  ⟨[⟨1, "alice"⟩, ⟨2, "bob"⟩], [⟨1, "Q1", 1, 0, none⟩, ⟨2, "Q2", 1, 0, none⟩],
   [⟨7, "an answer to question two", 2, 2, 0, false⟩], [], [], 8, 1, 1⟩

/-- Claim C2's failing input evaluated on the code: the API apps' acceptAnswer
called with question id 1 and answer id 7, although answer 7 belongs to
question 2, returns success and mutates the state — question 1 now points at
an answer of another question and answer 7 is flagged accepted while its
parent question 2 points nowhere.  The claim (and the full app's variant)
require a NotFound failure with no state change. -/
theorem acceptAnswer_cross_question_bug :
    (acceptAnswerApi crossAcceptState 1 1 7).1 = AcceptResult.ok ∧
    (acceptAnswerApi crossAcceptState 1 1 7).2.questions.map
      (fun q => (q.id, q.accepted_answer_id)) = [(1, some 7), (2, none)] ∧
    (acceptAnswerApi crossAcceptState 1 1 7).2.answers.map
      (fun a => (a.id, a.question_id, a.is_accepted)) = [(7, 2, true)] := by
  decide

/-- Claim C10: the notifications page of the full app is not read-only — it
marks every notification of the requesting user read (so the unread count is
zero immediately afterwards), changes no other notification field, leaves
other users' notifications alone, and touches nothing else in the state. -/
theorem notificationsRoute_marks_all_read (s : DB) (uid : Nat) :
    unreadCount (notificationsRoute s uid) uid = 0 ∧
    (∀ n ∈ (notificationsRoute s uid).notifications, n.user_id = uid → n.is_read = true) ∧
    (notificationsRoute s uid).notifications.map
      (fun n => (n.id, n.user_id, n.type, n.title, n.message, n.question_id, n.answer_id)) =
      s.notifications.map
        (fun n => (n.id, n.user_id, n.type, n.title, n.message, n.question_id, n.answer_id)) ∧
    (notificationsRoute s uid).notifications.filter (fun n => !(n.user_id == uid)) =
      s.notifications.filter (fun n => !(n.user_id == uid)) ∧
    (notificationsRoute s uid).users = s.users ∧
    (notificationsRoute s uid).questions = s.questions ∧
    (notificationsRoute s uid).answers = s.answers ∧
    (notificationsRoute s uid).votes = s.votes ∧
    (notificationsRoute s uid).next_answer_id = s.next_answer_id ∧
    (notificationsRoute s uid).next_vote_id = s.next_vote_id ∧
    (notificationsRoute s uid).next_notification_id = s.next_notification_id := by
  refine ⟨?_, ?_, ?_, ?_, rfl, rfl, rfl, rfl, rfl, rfl, rfl⟩
  · unfold unreadCount notificationsRoute
    have hnil : ∀ l : List NotificationR,
        (l.map (fun n => if n.user_id == uid then { n with is_read := true } else n)).filter
          (fun n => n.user_id == uid && n.is_read == false) = [] := by
      intro l
      induction l with
      | nil => rfl
      | cons n t ih =>
        rw [List.map_cons]
        by_cases hc : (n.user_id == uid) = true
        · rw [if_pos hc, List.filter_cons_of_neg (by simp)]
          exact ih
        · rw [if_neg hc, List.filter_cons_of_neg (by simp [hc])]
          exact ih
    rw [hnil]
    rfl
  · intro n hn hu
    unfold notificationsRoute at hn
    rcases List.mem_map.mp hn with ⟨n₀, _, heq⟩
    by_cases hc : (n₀.user_id == uid) = true
    · rw [if_pos hc] at heq
      rw [← heq]
    · rw [if_neg hc] at heq
      rw [← heq] at hu
      exact absurd (by simpa using hu) hc
  · unfold notificationsRoute
    simp only [List.map_map]
    apply List.map_congr_left
    intro n _
    simp only [Function.comp_apply]
    split <;> rfl
  · unfold notificationsRoute
    have hfil : ∀ l : List NotificationR,
        (l.map (fun n => if n.user_id == uid then { n with is_read := true } else n)).filter
          (fun n => !(n.user_id == uid)) = l.filter (fun n => !(n.user_id == uid)) := by
      intro l
      induction l with
      | nil => rfl
      | cons n t ih =>
        rw [List.map_cons]
        by_cases hc : (n.user_id == uid) = true
        · rw [if_pos hc, List.filter_cons_of_neg (by simp [hc]),
            List.filter_cons_of_neg (by simp [hc])]
          exact ih
        · rw [if_neg hc, List.filter_cons_of_pos (by simp [hc]),
            List.filter_cons_of_pos (by simp [hc])]
          rw [ih]
    exact hfil s.notifications

/-- The users who will receive a mention notification for a posted body: one
entry per regex match (no deduplication), dropping matches that resolve to no
user or to the posting user. -/
def mentionTargets (users : List UserR) (uid : Nat) (content : String) : List UserR :=
  (findMentions content.data).filterMap (fun uname =>
    match users.find? (fun u => u.username == uname) with
    | some mu => if mu.id != uid then some mu else none
    | none => none)

/-- The notification fingerprint: recipient, kind and references. -/
def notifKey (n : NotificationR) : Nat × String × Option Nat × Option Nat :=
  (n.user_id, n.type, n.question_id, n.answer_id)

theorem mentionStep_users (uid qid aid : Nat) (c t : String) (st : DB) (uname : String) :
    (mentionStep uid qid aid c t st uname).users = st.users := by
  unfold mentionStep
  split
  · split <;> rfl
  · rfl

/-- The mention loop appends exactly one `mention` notification per name that
resolves to a user other than the poster, in order. -/
theorem foldl_mentionStep_notifs (uid qid aid : Nat) (c t : String) (names : List String)
    (st : DB) :
    (names.foldl (mentionStep uid qid aid c t) st).notifications.map notifKey =
      st.notifications.map notifKey ++
      (names.filterMap (fun uname =>
        match st.users.find? (fun u => u.username == uname) with
        | some mu => if mu.id != uid then some mu else none
        | none => none)).map
        (fun u => (u.id, "mention", some qid, some aid)) := by
  induction names generalizing st with
  | nil => simp
  | cons n ns ih =>
    rw [List.foldl_cons]
    cases hf : st.users.find? (fun u => u.username == n) with
    | none =>
      have hstep : mentionStep uid qid aid c t st n = st := by
        unfold mentionStep
        simp only [hf]
      rw [hstep, ih]
      simp [List.filterMap_cons, hf]
    | some mu =>
      by_cases hmu : (mu.id != uid) = true
      · have hstep : mentionStep uid qid aid c t st n =
            addNotification st mu.id "mention" "You were mentioned in an answer"
              ("@" ++ c ++ " mentioned you in an answer to \"" ++ t ++ "\"")
              (some qid) (some aid) := by
          unfold mentionStep
          simp only [hf]
          rw [if_pos hmu]
        rw [hstep, ih]
        have husers : (addNotification st mu.id "mention" "You were mentioned in an answer"
            ("@" ++ c ++ " mentioned you in an answer to \"" ++ t ++ "\"")
            (some qid) (some aid)).users = st.users := rfl
        rw [husers]
        have hnot : (addNotification st mu.id "mention" "You were mentioned in an answer"
            ("@" ++ c ++ " mentioned you in an answer to \"" ++ t ++ "\"")
            (some qid) (some aid)).notifications.map notifKey =
            st.notifications.map notifKey ++ [(mu.id, "mention", some qid, some aid)] := by
          unfold addNotification
          rw [List.map_append]
          rfl
        rw [hnot]
        have hmu2 : ¬(mu.id = uid) := by simpa using hmu
        simp [List.filterMap_cons, hf, hmu2]
      · have hstep : mentionStep uid qid aid c t st n = st := by
          unfold mentionStep
          simp only [hf]
          rw [if_neg hmu]
        rw [hstep, ih]
        have hmu2 : mu.id = uid := by simpa using hmu
        simp [List.filterMap_cons, hf, hmu2]

/-- Claim C8: a successfully posted answer fans out notifications as follows —
one `answer` notification to the question's author (unless self-answering)
and then, for every `@word` match in the body in order, one `mention`
notification per match that resolves to an existing user other than the
poster (repeated mentions fire repeatedly; unresolvable and self mentions are
silently dropped and the call still succeeds). -/
theorem postAnswer_mentions (s : DB) (uid qid : Nat) (content : String) (q : QuestionR)
    (hfq : lookupQuestion s qid = some q) (hval : contentValid content = true) :
    (postAnswerFull s uid qid content).1 = PostResult.ok s.next_answer_id ∧
    (postAnswerFull s uid qid content).2.notifications.map notifKey =
      s.notifications.map notifKey ++
      (if q.author_id ≠ uid then [(q.author_id, "answer", some qid, some s.next_answer_id)]
       else []) ++
      (mentionTargets s.users uid content).map
        (fun u => (u.id, "mention", some qid, some s.next_answer_id)) := by
  simp only [postAnswerFull, hfq]
  rw [if_pos hval]
  refine ⟨rfl, ?_⟩
  rw [foldl_mentionStep_notifs]
  by_cases hau : (q.author_id != uid) = true
  · rw [if_pos hau, if_pos (show q.author_id ≠ uid by simpa using hau)]
    show (s.notifications ++
        ([⟨s.next_notification_id, q.author_id, "answer", "New answer to your question",
          "Someone answered your question \"" ++ q.title ++ "\"",
          some qid, some s.next_answer_id, false⟩] : List NotificationR)).map notifKey ++
      (mentionTargets s.users uid content).map
        (fun u => (u.id, "mention", some qid, some s.next_answer_id)) =
      s.notifications.map notifKey ++
        [(q.author_id, "answer", some qid, some s.next_answer_id)] ++
      (mentionTargets s.users uid content).map
        (fun u => (u.id, "mention", some qid, some s.next_answer_id))
    rw [List.map_append]
    rfl
  · rw [if_neg hau, if_neg (show ¬q.author_id ≠ uid by simpa using hau)]
    rw [List.append_nil]
    rfl

/-- Concrete state for the C8 witness: alice (1) asked question 1; bob (2)
exists; there is no user named ghost. -/
def mentionPostState : DB :=
  ⟨[⟨1, "alice"⟩, ⟨2, "bob"⟩], [⟨1, "T", 1, 0, none⟩], [], [], [], 1, 1, 1⟩

/-- Witness for C8: alice answers her own question mentioning bob twice,
herself, and a nonexistent user — two independent mention notifications to bob
are created, nothing else. -/
theorem postAnswer_mentions_witness :
    (postAnswerFull mentionPostState 1 1
      "thanks @bob and @bob, also @alice and @ghost").1 = PostResult.ok 1 ∧
    (postAnswerFull mentionPostState 1 1
      "thanks @bob and @bob, also @alice and @ghost").2.notifications.map notifKey =
      [(2, "mention", some 1, some 1), (2, "mention", some 1, some 1)] :=
  ⟨(postAnswer_mentions mentionPostState 1 1 "thanks @bob and @bob, also @alice and @ghost"
      ⟨1, "T", 1, 0, none⟩ rfl (by decide)).1, by decide⟩
